import Mathlib

/-!
Verification of the linear-binning module (KDEpy, `src/KDEpy/binning.py`)
against its specification.

Python floats are modelled as exact rationals (ℚ).  `np.asarray_chkfinite`
is the identity on ℚ (every rational is finite).  Float division is ℚ
division; the single place where the Python code can divide by zero
(a zero weight sum, or a degenerate grid) produces `inf`/`nan` in numpy
without raising, and in the ℚ model it produces `0`; no theorem below
depends on that corner.  Sums of rationals do not depend on summation
order, so numpy reductions are modelled as list sums.
-/

set_option maxRecDepth 4000

namespace KDEpy

/-- Python exceptions that `binning.py` can raise: `IndexError` (indexing an
empty diff array, or writing past the end of the accumulator),
`AssertionError` (the equidistance `assert`), `ValueError`
(`'Length of data must match length of weights.'`). -/
inductive PyErr
  | indexError
  | assertionError
  | valueError
deriving DecidableEq

/-- Embedding of `np.diff`: consecutive differences of a sequence. -/
def npDiff (xs : List ℚ) : List ℚ := List.zipWith (fun a b => b - a) xs xs.tail

/-- Embedding of `np.isclose a b` with numpy defaults
`rtol = 1e-5`, `atol = 1e-8`: the test `|a - b| <= atol + rtol * |b|`. -/
def npIsclose (a b : ℚ) : Bool := |a - b| ≤ 1 / 100000000 + (1 / 100000) * |b|

/-- Grid validation, lines 36-37 and 92-93 of `binning.py`:
`diffs = np.diff(grid_points)` followed by
`assert np.allclose(np.ones_like(diffs) * diffs[0], diffs)`.
When the grid has fewer than two points, `diffs` is empty and `diffs[0]`
raises `IndexError`; otherwise the `assert` raises `AssertionError` unless
every difference is close (numpy default tolerances) to the first one. -/
def gridValidation (grid_points : List ℚ) : Except PyErr Unit :=
  match npDiff grid_points with
  | [] => Except.error PyErr.indexError
  | d0 :: rest =>
      if (d0 :: rest).all (fun d => npIsclose d0 d) then Except.ok ()
      else Except.error PyErr.assertionError

/-- Rounding toward zero, as `np.modf` and `astype(int)` do on floats
(`modf(-0.5) = (-0.5, -0.0)` and `int(-0.0) = 0`). -/
def ratTrunc (q : ℚ) : ℤ := if 0 ≤ q then ⌊q⌋ else ⌈q⌉

/-- Embedding of `np.modf` composed with the `astype(np.int)` cast,
line 116: the fractional part and the integral part of a float, both
rounded toward zero. -/
def npModf (t : ℚ) : ℚ × ℤ := (t - (ratTrunc t : ℚ), ratTrunc t)

/-- Weight normalisation, lines 95-99: default the weights to
`np.ones_like(data)` when absent, then divide by the weight sum. -/
def normalizedWeights (data : List ℚ) (weights : Option (List ℚ)) : List ℚ :=
  let w := weights.getD (data.map fun _ => (1 : ℚ))
  w.map fun x => x / w.sum

/-- Coordinate transform, lines 105-112 (identical at lines 47-52):
`dx = (max(grid) - min(grid)) / (len(grid) - 1)` and
`t = (data - min(grid)) / dx`. -/
def transformedData (data grid_points : List ℚ) : List ℚ :=
  match grid_points with
  | [] => []
  | g0 :: rest =>
      let min_grid := rest.foldl min g0
      let max_grid := rest.foldl max g0
      let dx := (max_grid - min_grid) / ((grid_points.length : ℚ) - 1)
      data.map fun x => (x - min_grid) / dx

/-- One transformed sample of `linbin_numpy`: the integral bucket `b` and
fractional part `f` of its transformed coordinate (line 116) and its
normalised weight `w`. -/
structure Sample where
  b : ℤ
  f : ℚ
  w : ℚ
deriving DecidableEq

/-- Samples built from transformed coordinates paired with weights,
line 116: each transformed coordinate is split by `np.modf`. -/
def mkSamples (ts ws : List ℚ) : List Sample :=
  (ts.zip ws).map fun p =>
    { b := (npModf p.1).2, f := (npModf p.1).1, w := p.2 }

/-- Samples of `linbin_numpy`: the transformed data paired with the
normalised weights. -/
def linbinSamples (data grid_points : List ℚ) (w : List ℚ) : List Sample :=
  mkSamples (transformedData data grid_points) w

/-- Sum of `neg_frac_weights = weights - fractional * weights` (line 129)
over the samples whose integral bucket is `j`.  Lines 119-126 and 141-143:
the `argsort` and the two `searchsorted` calls select exactly the run of
sorted samples whose integral part equals the loop's grid point, and the
pre-computed products over that run are summed; rational sums do not
depend on the order, so the selection is modelled as a filter. -/
def negFracContrib (samples : List Sample) (j : ℤ) : ℚ :=
  ((samples.filter fun s => decide (s.b = j)).map fun s => s.w - s.f * s.w).sum

/-- Sum of `frac_weights = fractional * weights` (line 128) over the
samples whose integral bucket is `j`. -/
def fracContrib (samples : List Sample) (j : ℤ) : ℚ :=
  ((samples.filter fun s => decide (s.b = j)).map fun s => s.f * s.w).sum

/-- Output of the accumulation loop of `linbin_numpy`, lines 131-146, after
the final truncation `result[:-1]`.  The loop runs over the distinct bucket
values kept by the filter `0 <= unique_integrals <= len(grid_points)`;
output entry `j` receives `neg_frac_weights` sums from bucket `j` and
`frac_weights` sums from bucket `j - 1` (entry `0` receives no
`frac_weights` because bucket `-1` is filtered away). -/
def linbinOutput (samples : List Sample) (M : ℕ) : List ℚ :=
  (List.range M).map fun (j : ℕ) =>
    negFracContrib samples (j : ℤ)
      + if j = 0 then 0 else fracContrib samples ((j : ℤ) - 1)

/-- Embedding of `linbin_numpy`, lines 64-146.  After validation,
normalisation and the length check, the samples are accumulated per
bucket.  The accumulator `result` has `len(grid_points) + 1` slots; when
some bucket equals `M = len(grid_points)` (it is kept by the filter at
lines 133-135), the write `result[grid_point + 1]` at line 144 addresses
slot `M + 1` and raises `IndexError`. -/
def linbin_numpy (data grid_points : List ℚ) (weights : Option (List ℚ)) :
    Except PyErr (List ℚ) :=
  match gridValidation grid_points with
  | Except.error e => Except.error e
  | Except.ok _ =>
      let w := normalizedWeights data weights
      if data.length ≠ w.length then Except.error PyErr.valueError
      else
        let samples := linbinSamples data grid_points w
        if samples.any fun s => decide (s.b = (grid_points.length : ℤ)) then
          Except.error PyErr.indexError
        else Except.ok (linbinOutput samples grid_points.length)

/-- Modelled from the spec: the compiled extension module `cutils`
(functions `iterate_data` and `iterate_data_weighted`, called at lines
56-60) is not part of the source tree.  Spec 4.4/4.5: the accelerated
binner applies the identical per-sample contribution rule in a single
loop with bounds checks — a sample with integral bucket `b = floor(t)`
and fractional part `f = t - floor(t)` adds `w * (1 - f)` to accumulator
slot `b` and `w * f` to slot `b + 1`, each only when that slot index lies
inside the accumulator (here of length `slots = len(grid_points) + 1`). -/
def iterate_data_weighted (transformed weights : List ℚ) (slots : ℕ) : List ℚ :=
  (List.range slots).map fun (j : ℕ) =>
    (((transformed.zip weights).filter fun p => decide (⌊p.1⌋ = (j : ℤ))).map
        fun p => p.2 * (1 - (p.1 - (⌊p.1⌋ : ℚ)))).sum
      + (((transformed.zip weights).filter fun p => decide (⌊p.1⌋ + 1 = (j : ℤ))).map
        fun p => p.2 * (p.1 - (⌊p.1⌋ : ℚ))).sum

/-- Modelled from the spec: the unweighted accelerated loop
(`cutils.iterate_data`, line 57) accumulates a unit weight per sample. -/
def iterate_data (transformed : List ℚ) (slots : ℕ) : List ℚ :=
  iterate_data_weighted transformed (transformed.map fun _ => (1 : ℚ)) slots

/-- Embedding of `linbin_cython`, lines 18-61: same grid validation and
coordinate transform as `linbin_numpy`; provided weights are normalised
and length-checked (lines 39-44); the accumulation is delegated to the
`cutils` loops (modelled from the spec above); the unweighted result is
divided by `len(data)` at the end (line 58). -/
def linbin_cython (data grid_points : List ℚ) (weights : Option (List ℚ)) :
    Except PyErr (List ℚ) :=
  match gridValidation grid_points with
  | Except.error e => Except.error e
  | Except.ok _ =>
      match weights with
      | none =>
          Except.ok
            (((iterate_data (transformedData data grid_points)
                  (grid_points.length + 1)).take grid_points.length).map
              fun x => x / (data.length : ℚ))
      | some ws =>
          let w := ws.map fun x => x / ws.sum
          if data.length ≠ w.length then Except.error PyErr.valueError
          else
            Except.ok
              ((iterate_data_weighted (transformedData data grid_points) w
                  (grid_points.length + 1)).take grid_points.length)

/-- Embedding of `linear_binning`, lines 149-180: dispatch on the
`_use_Cython` import-availability flag (modelled as an explicit argument).
Both branches pass `weights=None` (lines 177-180), discarding the
caller's `weights` argument. -/
def linear_binning (use_Cython : Bool) (data grid_points : List ℚ)
    (weights : Option (List ℚ)) : Except PyErr (List ℚ) :=
  if use_Cython then linbin_cython data grid_points none
  else linbin_numpy data grid_points none

/-- C1: the spec's weighted example routed through the public operation.
The claim fails on the code: `linear_binning` passes `weights=None` to the
strategy (line 177/180), so the caller's weights `[1,2,3,4]` are discarded
and the result is the uniform-weight vector `[0, 0, 3/8, 3/8, 1/4, 0]`,
not the claimed `[0, 0, 0.2, 0.4, 0.4, 0]`; the strategy itself
(`linbin_numpy`), fed the same weights directly, does return the claimed
vector exactly — matching its own doctest at lines 81-82, so the
`weights=None` in `linear_binning` is the slip. -/
theorem C1_weights_dropped_eval :
    linear_binning false [2, 5/2, 3, 4] [0, 1, 2, 3, 4, 5] (some [1, 2, 3, 4])
        = Except.ok [0, 0, 3/8, 3/8, 1/4, 0] ∧
    linear_binning true [2, 5/2, 3, 4] [0, 1, 2, 3, 4, 5] (some [1, 2, 3, 4])
        = Except.ok [0, 0, 3/8, 3/8, 1/4, 0] ∧
    linbin_numpy [2, 5/2, 3, 4] [0, 1, 2, 3, 4, 5] (some [1, 2, 3, 4])
        = Except.ok [0, 0, 1/5, 2/5, 2/5, 0] ∧
    ¬ |(3 : ℚ)/8 - 1/5| ≤ 1/10 :=
  ⟨by with_unfolding_all rfl, by with_unfolding_all rfl, by with_unfolding_all rfl,
    by with_unfolding_all decide⟩

/-- C2: the claim says a sample outside the grid range contributes nothing
to the returned mass vector and raises no error.  The code violates both
halves: a sample at `-0.5` on the grid `[0, 1, 2]` has transformed
coordinate `-0.5`, whose `np.modf` integral part is `-0.0`, cast to `0`,
so it passes the `unique_integrals >= 0` filter and adds `1.5` to entry 0
and `-0.5` to entry 1; and a sample at `3.5` has integral part
`3 = len(grid_points)`, which passes the `<= len(grid_points)` filter and
makes `result[grid_point + 1]` raise `IndexError`. -/
theorem C2_out_of_range_eval :
    linbin_numpy [-(1/2)] [0, 1, 2] none = Except.ok [3/2, -(1/2), 0] ∧
    linbin_numpy [7/2] [0, 1, 2] none = Except.error PyErr.indexError :=
  ⟨by with_unfolding_all rfl, by with_unfolding_all rfl⟩

/-- C5: the claim says calling the public operation with weights of a
length different from the data fails with the length-mismatch error.  The
strategy `linbin_numpy` does raise it (line 101-102), but the public
`linear_binning` replaces the caller's weights by `None` (line 177/180),
so the defaulted uniform weights always match and the call returns the
unweighted result instead of failing. -/
theorem C5_length_mismatch_eval :
    linbin_numpy [0, 0, 1, 2] [0, 1, 2] (some [1, 1, 1])
        = Except.error PyErr.valueError ∧
    linear_binning false [0, 0, 1, 2] [0, 1, 2] (some [1, 1, 1])
        = Except.ok [1/2, 1/4, 1/4] ∧
    linear_binning true [0, 0, 1, 2] [0, 1, 2] (some [1, 1, 1])
        = Except.ok [1/2, 1/4, 1/4] :=
  ⟨by with_unfolding_all rfl, by with_unfolding_all rfl, by with_unfolding_all rfl⟩

/-- C6: the claim guarantees, for every finite data set on a valid grid
with non-negative weights, an output of length `M` with non-negative
entries.  The code violates non-negativity: the single sample `-0.5` on
the grid `[0, 1, 2]` with weight `[1]` yields output entry `-0.5 < 0` at
index 1 (root cause: `np.modf` truncates toward zero, so the sample's
negative fractional part `-0.5` slips past the `>= 0` bucket filter). -/
theorem C6_negative_mass_eval :
    linbin_numpy [-(1/2)] [0, 1, 2] (some [1]) = Except.ok [3/2, -(1/2), 0] ∧
    ¬ (0 : ℚ) ≤ -(1/2) :=
  ⟨by with_unfolding_all rfl, by with_unfolding_all decide⟩

/-- C7: the spec's unweighted known example through the public operation:
`data = [1, 1.5, 1.5, 2, 2.8, 3]`, `grid_points = [1, 2, 3]`, uniform
weights.  Both strategies return exactly `[1/3, 11/30, 3/10]`, and each
entry is within `1e-5` of the claimed decimals `[0.33333, 0.36667, 0.30000]`. -/
theorem C7_known_example :
    linear_binning false [1, 3/2, 3/2, 2, 14/5, 3] [1, 2, 3] none
        = Except.ok [1/3, 11/30, 3/10] ∧
    linear_binning true [1, 3/2, 3/2, 2, 14/5, 3] [1, 2, 3] none
        = Except.ok [1/3, 11/30, 3/10] ∧
    |(1 : ℚ)/3 - 33333/100000| ≤ 1/100000 ∧
    |(11 : ℚ)/30 - 36667/100000| ≤ 1/100000 ∧
    |(3 : ℚ)/10 - 30000/100000| ≤ 1/100000 :=
  ⟨by with_unfolding_all rfl, by with_unfolding_all rfl, by with_unfolding_all decide,
    by with_unfolding_all decide, by with_unfolding_all decide⟩

/-- C10: the public operation's result is independent of its `weights`
argument, because `linear_binning` calls both strategies with
`weights=None` (lines 177-180); the argument never reaches either strategy. -/
theorem C10_weights_ignored (b : Bool) (data grid_points : List ℚ)
    (w1 w2 : Option (List ℚ)) :
    linear_binning b data grid_points w1 = linear_binning b data grid_points w2 :=
  rfl

/-- C3, counterexample: the claim asserts that for every transformed
coordinate `t`, even a negative one, the code decomposes `t` into
`floor(t)` and a fractional part in `[0, 1)`.  At `t = -0.5` the code's
`np.modf` yields integral part `0` (not `floor(-0.5) = -1`) and
fractional part `-0.5`, which is not in `[0, 1)`. -/
theorem C3_counterexample :
    ¬ ((npModf (-(1/2))).2 = ⌊(-(1/2) : ℚ)⌋ ∧
        0 ≤ (npModf (-(1/2))).1 ∧ (npModf (-(1/2))).1 < 1) := by
  with_unfolding_all decide

/-- C9, counterexample: the two strategies are not equivalent on all
common inputs.  On `data = [-0.5]`, `grid_points = [0, 1, 2]`, uniform
weights, the vectorized strategy returns `[1.5, -0.5, 0]` (the sample's
truncation-based bucket `0` passes the filter) while the accelerated
strategy (floor-based per-sample rule, modelled from the spec) returns
`[0.5, 0, 0]`; the first entries differ by `1`, far beyond the claimed
`1e-10` tolerance. -/
theorem C9_counterexample :
    linbin_numpy [-(1/2)] [0, 1, 2] none = Except.ok [3/2, -(1/2), 0] ∧
    linbin_cython [-(1/2)] [0, 1, 2] none = Except.ok [1/2, 0, 0] ∧
    ¬ |(3 : ℚ)/2 - 1/2| ≤ 1/10000000000 :=
  ⟨by with_unfolding_all rfl, by with_unfolding_all rfl, by with_unfolding_all decide⟩

/-- C3, amended: the decomposition at line 116 is the truncation-based one
of `np.modf`: `integral_i = trunc(t_i)` and
`fractional_i = t_i - trunc(t_i)`, which always lies in `(-1, 1)`; it
coincides with the claimed floor decomposition, with
`fractional_i ∈ [0, 1)`, exactly on the non-negative transformed
coordinates, while for negative non-integer `t_i` the fractional part is
negative. -/
theorem C3_trunc_decomposition (t : ℚ) :
    (npModf t).2 = ratTrunc t ∧
    -1 < (npModf t).1 ∧ (npModf t).1 < 1 ∧
    (0 ≤ t → (npModf t).2 = ⌊t⌋ ∧ 0 ≤ (npModf t).1) := by
  refine ⟨rfl, ?_, ?_, ?_⟩
  · simp only [npModf, ratTrunc]
    split
    · have := Int.floor_le t
      linarith
    · have := Int.ceil_lt_add_one t
      linarith
  · simp only [npModf, ratTrunc]
    split
    · have := Int.lt_floor_add_one t
      linarith
    · have := Int.le_ceil t
      linarith
  · intro h
    unfold npModf ratTrunc
    rw [if_pos h]
    refine ⟨rfl, ?_⟩
    show 0 ≤ t - (⌊t⌋ : ℚ)
    have := Int.floor_le t
    linarith

/-- Witness for C3: at the in-range coordinate `t = 7/2` the truncation
decomposition agrees with the floor decomposition and the fractional part
is non-negative. -/
theorem C3_witness :
    0 ≤ (7 : ℚ)/2 ∧
    ((npModf ((7 : ℚ)/2)).2 = ⌊(7 : ℚ)/2⌋ ∧ 0 ≤ (npModf ((7 : ℚ)/2)).1) :=
  ⟨by norm_num, (C3_trunc_decomposition ((7 : ℚ)/2)).2.2.2 (by norm_num)⟩

/-- C4: grid validation fails exactly when the grid is unusable — when it
has fewer than two points (then `diffs[0]` raises) or when some
consecutive difference is not all-close to the first difference (then the
`assert` raises); otherwise validation passes.  Moreover the public
operation propagates the validation failure unchanged, for either
strategy.  (The spec's name `InvalidGridError` covers both concrete
exceptions, which it defines by exactly this condition.) -/
theorem C4_grid_validation (g : List ℚ) :
    ((∃ e, gridValidation g = Except.error e) ↔
        g.length < 2 ∨
          ∃ d ∈ npDiff g, npIsclose ((npDiff g).headD 0) d = false) ∧
    ∀ b data w e, gridValidation g = Except.error e →
      linear_binning b data g w = Except.error e := by
  constructor
  · match g with
    | [] => simp [gridValidation, npDiff]
    | [a] => simp [gridValidation, npDiff]
    | a :: b :: t =>
        have hd : npDiff (a :: b :: t) = (b - a) :: npDiff (b :: t) := rfl
        have hlen : ¬ (a :: b :: t).length < 2 := by simp
        by_cases hall :
            ((b - a) :: npDiff (b :: t)).all (fun d => npIsclose (b - a) d) = true
        · have hok : gridValidation (a :: b :: t) = Except.ok () := by
            simp only [gridValidation, hd, if_pos hall]
          rw [List.all_eq_true] at hall
          simp only [hok, hd, List.headD_cons, hlen, false_or]
          constructor
          · rintro ⟨e, he⟩
            exact absurd he (by simp)
          · rintro ⟨d, hdmem, hdfalse⟩
            exact absurd (hall d hdmem) (by simp [hdfalse])
        · have herr : gridValidation (a :: b :: t)
              = Except.error PyErr.assertionError := by
            simp only [gridValidation, hd, if_neg hall]
          rw [List.all_eq_true] at hall
          push_neg at hall
          obtain ⟨d, hdmem, hdne⟩ := hall
          simp only [herr, hd, List.headD_cons, hlen, false_or]
          constructor
          · intro _
            exact ⟨d, hdmem, by simpa using hdne⟩
          · intro _
            exact ⟨PyErr.assertionError, rfl⟩
  · intro b data w e he
    cases b with
    | false => simp [linear_binning, linbin_numpy, he]
    | true => simp [linear_binning, linbin_cython, he]

/-- Witness for C4: the spec's non-equidistant grid `[0, 1, 3]` makes the
public operation fail with the grid-validation error. -/
theorem C4_witness :
    linear_binning false [] [0, 1, 3] none
      = Except.error PyErr.assertionError :=
  (C4_grid_validation [0, 1, 3]).2 false [] none PyErr.assertionError
    (by with_unfolding_all rfl)

/-- C8: a sample exactly equal to the last grid point transforms to the
coordinate `(g_max - g_min) / dx`, which `np.modf` decomposes into
integral bucket `M - 1` and fractional part `0`; prepending such a sample
adds exactly its whole normalised weight `wq` to the bucket-`(M-1)`
accumulation feeding output index `M - 1`, and adds nothing to the
`frac_weights` accumulation at bucket `M - 1` that feeds the out-of-range
overflow slot `M`.  The concrete instance confirms it end to end: the
single sample `2` on the grid `[0, 1, 2]` yields the mass vector
`[0, 0, 1]`, nothing lost. -/
theorem C8_last_grid_point (M : ℕ) (g_min g_max wq : ℚ) (samples : List Sample)
    (hM : 2 ≤ M) (hlt : g_min < g_max) :
    npModf ((g_max - g_min) / ((g_max - g_min) / ((M : ℚ) - 1)))
      = (0, (M : ℤ) - 1) ∧
    negFracContrib ({ b := (M : ℤ) - 1, f := 0, w := wq } :: samples) ((M : ℤ) - 1)
      = wq + negFracContrib samples ((M : ℤ) - 1) ∧
    fracContrib ({ b := (M : ℤ) - 1, f := 0, w := wq } :: samples) ((M : ℤ) - 1)
      = fracContrib samples ((M : ℤ) - 1) ∧
    linbin_numpy [(2 : ℚ)] [0, 1, 2] none = Except.ok [0, 0, 1] := by
  have hM1 : (1 : ℚ) ≤ (M : ℚ) - 1 := by
    have : (2 : ℚ) ≤ (M : ℚ) := by exact_mod_cast hM
    linarith
  have hA : g_max - g_min ≠ 0 := sub_ne_zero.mpr (ne_of_gt hlt)
  have hB : (M : ℚ) - 1 ≠ 0 := by linarith
  have ht : (g_max - g_min) / ((g_max - g_min) / ((M : ℚ) - 1)) = (M : ℚ) - 1 := by
    field_simp
  have hcast : ((M : ℚ) - 1) = (((M : ℤ) - 1 : ℤ) : ℚ) := by push_cast; ring
  have htr : ratTrunc ((M : ℚ) - 1) = (M : ℤ) - 1 := by
    unfold ratTrunc
    rw [if_pos (by linarith), hcast, Int.floor_intCast]
  refine ⟨?_, ?_, ?_, by with_unfolding_all rfl⟩
  · rw [ht]
    unfold npModf
    rw [htr, ← hcast]
    simp
  · unfold negFracContrib
    rw [List.filter_cons]
    simp
  · unfold fracContrib
    rw [List.filter_cons]
    simp

/-- Witness for C8: instance with `M = 3`, `g_min = 0`, `g_max = 2`,
weight `1` and no other samples. -/
theorem C8_witness :
    2 ≤ 3 ∧ (0 : ℚ) < 2 ∧
    (npModf ((2 - 0) / ((2 - 0) / ((3 : ℚ) - 1))) = (0, (3 : ℤ) - 1) ∧
      negFracContrib ({ b := (3 : ℤ) - 1, f := 0, w := 1 } :: []) ((3 : ℤ) - 1)
        = 1 + negFracContrib [] ((3 : ℤ) - 1) ∧
      fracContrib ({ b := (3 : ℤ) - 1, f := 0, w := 1 } :: []) ((3 : ℤ) - 1)
        = fracContrib [] ((3 : ℤ) - 1) ∧
      linbin_numpy [(2 : ℚ)] [0, 1, 2] none = Except.ok [0, 0, 1]) :=
  ⟨by norm_num, by norm_num,
    C8_last_grid_point 3 0 2 1 [] (by norm_num) (by norm_num)⟩

/-- Congruence for a filtered-and-mapped sum: predicates and mapped
values that agree on the elements of the list give the same sum. -/
theorem filter_map_sum_congr {α : Type} (l : List α) (p q : α → Bool) (f g : α → ℚ)
    (h : ∀ a ∈ l, p a = q a ∧ f a = g a) :
    ((l.filter p).map f).sum = ((l.filter q).map g).sum := by
  induction l with
  | nil => rfl
  | cons a t ih =>
      have ha := h a (List.mem_cons_self a t)
      have ht : ∀ x ∈ t, p x = q x ∧ f x = g x :=
        fun x hx => h x (List.mem_cons_of_mem a hx)
      rw [List.filter_cons, List.filter_cons, ha.1]
      cases hq : q a with
      | false => simpa [hq] using ih ht
      | true => simp [hq, ha.2, ih ht]

/-- A filtered sum over a list on whose elements the predicate never
holds is zero. -/
theorem filter_false_sum {α : Type} (l : List α) (p : α → Bool) (f : α → ℚ)
    (h : ∀ a ∈ l, p a = false) : ((l.filter p).map f).sum = 0 := by
  induction l with
  | nil => rfl
  | cons a t ih =>
      have hpa := h a (List.mem_cons_self a t)
      have ht : ∀ x ∈ t, p x = false := fun x hx => h x (List.mem_cons_of_mem a hx)
      simp [List.filter_cons, hpa, ih ht]

/-- Division by a constant distributes over a list sum. -/
theorem sum_map_div {α : Type} (l : List α) (f : α → ℚ) (c : ℚ) :
    (l.map fun a => f a / c).sum = (l.map f).sum / c := by
  induction l with
  | nil => simp
  | cons a t ih => simp [ih, add_div]

/-- Scaling the zipped weights by `1 / c` scales a per-bucket
filtered sum by `1 / c`. -/
theorem zip_scaled_filter_sum (ts os : List ℚ) (c : ℚ) (P : ℚ → Bool) (X : ℚ → ℚ) :
    (((ts.zip (os.map fun x => x / c)).filter fun p => P p.1).map
        fun p => p.2 * X p.1).sum
      = ((((ts.zip os).filter fun p => P p.1).map fun p => p.2 * X p.1).sum) / c := by
  induction ts generalizing os with
  | nil => simp
  | cons a tts ih =>
      cases os with
      | nil => simp
      | cons b tos =>
          simp only [List.map_cons, List.zip_cons_cons, List.filter_cons]
          cases hP : P a with
          | false => simpa [hP] using ih tos
          | true => simp [hP, ih tos, add_div, div_mul_eq_mul_div]

/-- Scaling all weights by `1 / c` scales every accumulator slot of the
accelerated loop by `1 / c`. -/
theorem iterate_data_weighted_div (ts os : List ℚ) (c : ℚ) (n : ℕ) :
    iterate_data_weighted ts (os.map fun x => x / c) n
      = (iterate_data_weighted ts os n).map fun x => x / c := by
  unfold iterate_data_weighted
  rw [List.map_map]
  refine List.map_congr_left fun j hj => ?_
  simp only [Function.comp_apply]
  rw [add_div]
  congr 1
  · exact zip_scaled_filter_sum ts os c
      (fun t => decide (⌊t⌋ = (j : ℤ))) (fun t => 1 - (t - (⌊t⌋ : ℚ)))
  · exact zip_scaled_filter_sum ts os c
      (fun t => decide (⌊t⌋ + 1 = (j : ℤ))) (fun t => t - (⌊t⌋ : ℚ))

/-- On transformed coordinates inside `[0, M - 1]` no sample has bucket
`M`, so the `IndexError` branch of `linbin_numpy` is not taken. -/
theorem mkSamples_any_eq_false (ts ws : List ℚ) (M : ℕ)
    (h : ∀ t ∈ ts, 0 ≤ t ∧ t ≤ (M : ℚ) - 1) :
    ((mkSamples ts ws).any fun s => decide (s.b = (M : ℤ))) = false := by
  rw [List.any_eq_false]
  intro s hs
  unfold mkSamples at hs
  obtain ⟨p, hpmem, rfl⟩ := List.mem_map.mp hs
  obtain ⟨h0, h1⟩ := h p.1 (List.of_mem_zip hpmem).1
  simp only [decide_eq_true_eq]
  have hb : (npModf p.1).2 = ⌊p.1⌋ := by
    unfold npModf ratTrunc
    rw [if_pos h0]
  rw [hb]
  have hle : ⌊p.1⌋ ≤ ⌊(M : ℚ) - 1⌋ := Int.floor_le_floor h1
  have hfl : ⌊(M : ℚ) - 1⌋ = (M : ℤ) - 1 := by
    rw [show ((M : ℚ) - 1) = (((M : ℤ) - 1 : ℤ) : ℚ) by push_cast; ring,
      Int.floor_intCast]
  rw [hfl] at hle
  omega

/-- On transformed coordinates inside `[0, M - 1]`, the per-bucket
accumulation of `linbin_numpy` equals the first `M` accumulator slots of
the accelerated loop: truncation agrees with floor on non-negative
coordinates, bucket `-1` is empty, and the two per-sample products are
the same. -/
theorem linbinOutput_eq_iterate (ts ws : List ℚ) (M : ℕ)
    (h : ∀ t ∈ ts, 0 ≤ t ∧ t ≤ (M : ℚ) - 1) :
    linbinOutput (mkSamples ts ws) M = (iterate_data_weighted ts ws (M + 1)).take M := by
  have key : ∀ p ∈ ts.zip ws, (npModf p.1).2 = ⌊p.1⌋ ∧
      (npModf p.1).1 = p.1 - (⌊p.1⌋ : ℚ) ∧ 0 ≤ ⌊p.1⌋ := by
    intro p hp
    obtain ⟨h0, _⟩ := h p.1 (List.of_mem_zip hp).1
    have hb : ratTrunc p.1 = ⌊p.1⌋ := if_pos h0
    exact ⟨hb, by unfold npModf; rw [hb], Int.floor_nonneg.mpr h0⟩
  unfold linbinOutput iterate_data_weighted
  rw [← List.map_take, List.take_range, min_eq_left (Nat.le_succ M)]
  refine List.map_congr_left fun j hj => ?_
  congr 1
  · unfold negFracContrib mkSamples
    rw [List.filter_map, List.map_map]
    refine filter_map_sum_congr _ _ _ _ _ fun a ha => ?_
    obtain ⟨hb, hf, _⟩ := key a ha
    constructor
    · simp only [Function.comp_apply, hb]
    · simp only [Function.comp_apply, hf]
      ring
  · by_cases hj0 : j = 0
    · subst hj0
      rw [if_pos rfl]
      refine (filter_false_sum _ _ _ fun a ha => ?_).symm
      obtain ⟨_, _, hnn⟩ := key a ha
      simp only [decide_eq_false_iff_not, Nat.cast_zero]
      omega
    · rw [if_neg hj0]
      unfold fracContrib mkSamples
      rw [List.filter_map, List.map_map]
      refine filter_map_sum_congr _ _ _ _ _ fun a ha => ?_
      obtain ⟨hb, hf, _⟩ := key a ha
      constructor
      · simp only [Function.comp_apply, hb]
        rw [decide_eq_decide]
        omega
      · simp only [Function.comp_apply, hf]
        ring

/-- C9, amended: on every common input all of whose transformed
coordinates lie inside `[0, M - 1]` — in particular whenever all samples
lie inside the grid range `[g_min, g_max]` — the vectorized strategy
(`linbin_numpy`) and the accelerated strategy (`linbin_cython`, its
loops modelled from the spec) return exactly equal results, errors
included; in the exact rational model the agreement is equality, well
within the claimed `1e-10` tolerance. -/
theorem C9_numpy_cython_agree (data grid_points : List ℚ)
    (weights : Option (List ℚ))
    (h : ∀ t ∈ transformedData data grid_points,
        0 ≤ t ∧ t ≤ (grid_points.length : ℚ) - 1) :
    linbin_numpy data grid_points weights = linbin_cython data grid_points weights := by
  unfold linbin_numpy linbin_cython
  cases hgv : gridValidation grid_points with
  | error e => rfl
  | ok u =>
      cases weights with
      | none =>
          simp only []
          have hlen : data.length = (normalizedWeights data none).length := by
            simp [normalizedWeights]
          rw [if_neg (fun hc => hc hlen)]
          have hany := mkSamples_any_eq_false (transformedData data grid_points)
            (normalizedWeights data none) grid_points.length h
          unfold linbinSamples
          simp only [hany, Bool.false_eq_true, if_false]
          have hw : normalizedWeights data none
              = (data.map fun _ => (1 : ℚ)).map fun x => x / (data.length : ℚ) := by
            simp [normalizedWeights]
          have hone : (transformedData data grid_points).map (fun _ => (1 : ℚ))
              = data.map fun _ => (1 : ℚ) := by
            cases grid_points with
            | nil =>
                exfalso
                simp [gridValidation, npDiff] at hgv
            | cons g0 rest =>
                unfold transformedData
                rw [List.map_map]
                rfl
          rw [linbinOutput_eq_iterate _ _ _ h, hw,
            iterate_data_weighted_div (transformedData data grid_points)
              (data.map fun _ => (1 : ℚ)) ((data.length : ℚ)) (grid_points.length + 1)]
          unfold iterate_data
          rw [hone, List.map_take]
      | some ws =>
          simp only []
          have hws : normalizedWeights data (some ws) = ws.map fun x => x / ws.sum := rfl
          rw [hws]
          by_cases hl : data.length = (ws.map fun x => x / ws.sum).length
          · have hcond : ¬ data.length ≠ (ws.map fun x => x / ws.sum).length :=
              fun hc => hc hl
            rw [if_neg hcond, if_neg hcond]
            have hany := mkSamples_any_eq_false (transformedData data grid_points)
              (ws.map fun x => x / ws.sum) grid_points.length h
            unfold linbinSamples
            simp only [hany, Bool.false_eq_true, if_false]
            exact congrArg Except.ok (linbinOutput_eq_iterate _ _ _ h)
          · have hcond : data.length ≠ (ws.map fun x => x / ws.sum).length := hl
            rw [if_pos hcond, if_pos hcond]

/-- Witness for C9: on `data = [1/2, 1]`, `grid = [0, 1, 2]`,
`weights = [1, 2]` (all samples inside the grid range) the two
strategies agree. -/
theorem C9_witness :
    linbin_numpy [1/2, 1] [0, 1, 2] (some [1, 2])
      = linbin_cython [1/2, 1] [0, 1, 2] (some [1, 2]) :=
  C9_numpy_cython_agree [1/2, 1] [0, 1, 2] (some [1, 2])
    (by with_unfolding_all decide)

end KDEpy
